import Mathlib

/-!
Verification of the AVIATION archive parser (`AviationParser.py`).

The parser walks a binary archive laid out as a recursive directory tree:
a `DIRECTORY` at a byte offset holds `num_entries` 20-byte entry records,
then a length-prefixed string table of NUL-terminated names.  Every
directory construction first consults the process-wide map
`Directory.dir_map` (pointer → directory object): a hit either aliases the
earlier directory (`avoid_double_entries = False`) or—because the entry
filter should already have skipped it—fails an assertion
(`avoid_double_entries = True`); a miss registers the pointer before any
child is decoded.

This file is a shallow embedding of that code: bytes are `List Nat`
(values 0–255, enforced by reduction modulo 256 exactly where CPython's
`mmap`/`struct` guarantee byte ranges), fallible reads return `Except`,
the recursive walk takes explicit fuel (the Python recursion depth), and
the process-global `Directory.dir_map` is threaded as explicit state so
that its persistence across `Aviation` constructions can be stated.
`Except Err` mirrors the Python exception taxonomy that reaches
`Aviation.__init__`: `structError` for `struct.error`, `valueError` for
`str.index` misses, `assertionFailure` for the `assert(False)` in
`Directory.__init__`; `fuelOut` is the embedding's marker for exhausted
fuel and corresponds to no Python exception.
-/

namespace AviationModel

/-- Python exceptions that can escape the recursive walk, plus the
embedding's fuel marker. -/
inductive Err where
  | structError
  | valueError
  | assertionFailure
  | fuelOut
deriving DecidableEq, Repr

/-- Byte `i` of the archive.  `mmap` bytes are 0–255; the reduction modulo
256 makes that intrinsic to the model. -/
def byteAt (bin : List Nat) (i : Nat) : Nat := bin.getD i 0 % 256

/-- The value `struct.unpack_from("I", bin, off)` decodes: four bytes,
little-endian. -/
def u32val (bin : List Nat) (off : Nat) : Nat :=
  byteAt bin off + 256 * byteAt bin (off + 1) + 65536 * byteAt bin (off + 2)
    + 16777216 * byteAt bin (off + 3)

/-- `struct.unpack_from("I", bin, off)`: requires four bytes starting at
`off`, raising `struct.error` otherwise. -/
def readU32 (bin : List Nat) (off : Nat) : Except Err Nat :=
  if off + 4 ≤ bin.length then .ok (u32val bin off) else .error .structError

/-- `struct.unpack_from("{len}s", bin, off)`: `len` raw bytes starting at
`off`, raising `struct.error` if they extend past the archive's end. -/
def readBytes (bin : List Nat) (off len : Nat) : Except Err (List Nat) :=
  if off + len ≤ bin.length then .ok (((bin.drop off).take len).map (· % 256))
  else .error .structError

/-- The five fields of `Entry.DEF_ENTRY_HEADER`, in source order. -/
structure EntryRec where
  offset_into_str_list : Nat
  pointer : Nat
  size : Nat
  attributes : Nat
  reserved1 : Nat
deriving DecidableEq, Repr

/-- `StructBuilder.build_bit_field` for one `BitFieldDef`:
`(full_value & ((2 << to_bit) - 1)) >> from_bit`. -/
def bitField (fromBit toBit v : Nat) : Nat := (v &&& ((2 <<< toBit) - 1)) >>> fromBit

/-- The `is_dir` field of `Entry.DEF_ATTR`: `BitFieldDef("is_dir", 15, 15)`
applied to the entry's attribute word. -/
def EntryRec.is_dir (e : EntryRec) : Nat := bitField 15 15 e.attributes

/-- Decode one 20-byte `ENTRY` record: five consecutive little-endian u32
fields (`Entry.__init__` via `build_struct`). -/
def decodeEntry (bin : List Nat) (off : Nat) : Except Err EntryRec :=
  match readU32 bin off with
  | .error e => .error e
  | .ok a =>
    match readU32 bin (off + 4) with
    | .error e => .error e
    | .ok p =>
      match readU32 bin (off + 8) with
      | .error e => .error e
      | .ok s =>
        match readU32 bin (off + 12) with
        | .error e => .error e
        | .ok w =>
          match readU32 bin (off + 16) with
          | .error e => .error e
          | .ok r => .ok ⟨a, p, s, w, r⟩

/-- Decode `n` consecutive entry records starting at `off`
(`[Entry(self, ...) for i in xrange(self.num_entries)]`). -/
def decodeEntries (bin : List Nat) (off n : Nat) : Except Err (List EntryRec) :=
  match n with
  | 0 => .ok []
  | m + 1 =>
    match decodeEntry bin off with
    | .error e => .error e
    | .ok e =>
      match decodeEntries bin (off + 20) m with
      | .error err => .error err
      | .ok rest => .ok (e :: rest)

/-- Decode a whole `DIRECTORY` block at `off`: `num_entries`, the entry
table, `name_list_length`, and the raw string table, exactly as
`Directory.__init__` drives its `StructBuilder`. -/
def decodeDirectoryAt (bin : List Nat) (off : Nat) :
    Except Err (Nat × List EntryRec × List Nat) :=
  match readU32 bin off with
  | .error e => .error e
  | .ok nE =>
    match decodeEntries bin (off + 4) nE with
    | .error e => .error e
    | .ok es =>
      match readU32 bin (off + 4 + 20 * nE) with
      | .error e => .error e
      | .ok len =>
        match readBytes bin (off + 4 + 20 * nE + 4) len with
        | .error e => .error e
        | .ok nl => .ok (nE, es, nl)

/-- `self.name_list[start : self.name_list.index('\0', start)]`: the bytes
strictly between `start` and the next NUL.  `str.index` raises
`ValueError` when no NUL occurs at or after `start`. -/
def resolveName (nl : List Nat) (start : Nat) : Except Err (List Nat) :=
  match (nl.drop start).findIdx? (· == 0) with
  | some j => .ok ((nl.drop start).take j)
  | none => .error .valueError

/-- `Aviation.Config`. -/
structure Config where
  avoid_double_entries : Bool
  write_to_disk : Bool
  depth_limit : Nat
deriving DecidableEq, Repr

/-- The defaults declared in `Aviation.Config`. -/
def defaultConfig : Config := ⟨true, false, 0⟩

/-- `Directory.invalid_entries`, the denylist of known-bad pointers. -/
def invalid_entries : List Nat := [0x254574ac]

/-- A resolved `File` object: fields set in `File.__init__`.  Paths are
modelled as component lists (`parent_path + os.path.sep + name`). -/
structure FileNode where
  base_offset : Nat
  size : Nat
  name : List Nat
  depth : Nat
  path : List (List Nat)
deriving DecidableEq, Repr

/-- A resolved `Directory` object.  `own` is a freshly decoded directory
with its child lists; `sameAs` is a duplicate produced by `copy_attr`,
whose child lists are the (mutably shared) lists of the directory
registered under heap id `target`. -/
inductive DirNode where
  | own (name : List Nat) (path : List (List Nat)) (depth : Nat)
      (directories : List DirNode) (files : List FileNode)
  | sameAs (name : List Nat) (path : List (List Nat)) (depth : Nat) (target : Nat)
deriving Repr

/-- What `Directory.dir_map` records about a registered directory: the
identity of the object (a heap id in this model) plus the name and path
that the skip diagnostics read off it. -/
structure RegEntry where
  id : Nat
  name : List Nat
  path : List (List Nat)
deriving DecidableEq, Repr

/-- The `print` diagnostics the parser emits for skipped or aliased
entries, carrying the same data the format strings interpolate. -/
inductive Diag where
  | skipInvalid (name : List Nat) (ptr : Nat)
  | skipDouble (parentPath : List (List Nat)) (name : List Nat) (ptr : Nat)
      (firstPath : List (List Nat))
  | aliasOf (name : List Nat) (firstName : List Nat) (firstPath : List (List Nat))
      (ptr : Nat)
deriving Repr

/-- The mutable process state the walk touches: `Directory.dir_map`
(pointer → registered directory), a heap of completed directory objects
keyed by registration id, the chronological list of offsets at which a
directory was freshly decoded (`log`), and the emitted diagnostics. -/
structure St where
  dirMap : List (Nat × RegEntry)
  nextId : Nat
  heap : List (Nat × DirNode)
  log : List Nat
  diags : List Diag

/-- The state of a fresh Python process: `Directory.dir_map = {}`. -/
def emptySt : St := ⟨[], 0, [], [], []⟩

/-- `Directory.__should_visit_entry`: denylist check, then (only with
duplicate suppression enabled) the `dir_map` membership check, then the
depth limit.  Returns the decision and the state with any diagnostic
appended. -/
def should_visit_entry (cfg : Config) (st : St) (parentPath : List (List Nat))
    (e : EntryRec) (name : List Nat) (eDepth : Nat) : Bool × St :=
  if e.pointer ∈ invalid_entries then
    (false, { st with diags := st.diags ++ [.skipInvalid name e.pointer] })
  else if cfg.avoid_double_entries then
    match st.dirMap.lookup e.pointer with
    | some r =>
      (false, { st with diags := st.diags ++ [.skipDouble parentPath name e.pointer r.path] })
    | none =>
      if cfg.depth_limit ≠ 0 ∧ cfg.depth_limit < eDepth then (false, st) else (true, st)
  else
    if cfg.depth_limit ≠ 0 ∧ cfg.depth_limit < eDepth then (false, st) else (true, st)

/-- The per-entry loop at the bottom of `Directory.__init__`: resolve the
entry's name from the string table, apply `__should_visit_entry`, and
either recurse (`child`, a closure over the enclosing directory walk),
build a `File`, or skip.  Children accumulate in source order into the
directory list and file list. -/
def walkList (child : Nat → List Nat → St → Except Err (DirNode × St)) (cfg : Config)
    (es : List EntryRec) (nl : List Nat) (eDepth : Nat) (parentPath : List (List Nat))
    (st : St) : Except Err (List DirNode × List FileNode × St) :=
  match es with
  | [] => .ok ([], [], st)
  | e :: rest =>
    match resolveName nl e.offset_into_str_list with
    | .error err => .error err
    | .ok name =>
      let vs := should_visit_entry cfg st parentPath e name eDepth
      if vs.1 then
        if e.is_dir ≠ 0 then
          match child e.pointer name vs.2 with
          | .error err => .error err
          | .ok (node, st2) =>
            match walkList child cfg rest nl eDepth parentPath st2 with
            | .error err => .error err
            | .ok (dirs, files, st3) => .ok (node :: dirs, files, st3)
        else
          match walkList child cfg rest nl eDepth parentPath vs.2 with
          | .error err => .error err
          | .ok (dirs, files, st3) =>
            .ok (dirs, ⟨e.pointer, e.size, name, eDepth, parentPath ++ [name]⟩ :: files, st3)
      else
        walkList child cfg rest nl eDepth parentPath vs.2

/-- `Directory.__init__` for the directory at `ptr`: a `dir_map` hit
aliases the registered directory (`copy_attr`) or fails the assertion,
depending on `avoid_double_entries`; a miss registers `ptr` first, then
decodes the directory block and resolves its entries.  `fuel` bounds the
Python recursion depth; `fuelOut` is the embedding's marker for running
out of it. -/
def walkDir (bin : List Nat) (cfg : Config) (fuel : Nat) (ptr : Nat) (name : List Nat)
    (depth : Nat) (parentPath : List (List Nat)) (st : St) : Except Err (DirNode × St) :=
  match fuel with
  | 0 => .error .fuelOut
  | f + 1 =>
    let path := parentPath ++ [name]
    match st.dirMap.lookup ptr with
    | some r =>
      if cfg.avoid_double_entries then .error .assertionFailure
      else
        .ok (.sameAs name path depth r.id,
          { st with diags := st.diags ++ [.aliasOf name r.name r.path ptr] })
    | none =>
      let id := st.nextId
      let st1 : St :=
        { st with
          dirMap := (ptr, ⟨id, name, path⟩) :: st.dirMap
          nextId := id + 1
          log := st.log ++ [ptr] }
      match decodeDirectoryAt bin ptr with
      | .error e => .error e
      | .ok (_, es, nl) =>
        match walkList (fun p n s => walkDir bin cfg f p n (depth + 1) path s) cfg es nl
            (depth + 1) path st1 with
        | .error e => .error e
        | .ok (dirs, files, st2) =>
          .ok (.own name path depth dirs files,
            { st2 with heap := (id, .own name path depth dirs files) :: st2.heap })

/-- What `Aviation.__init__` lets escape: `struct.error` is wrapped as the
archive-format `AviationException`; every other exception reaches the
handler `except e:` whose guard expression `e` is an undefined name, so a
`NameError` surfaces instead of any classified error. -/
inductive AvErr where
  | formatException
  | nameError
  | fuelOut
deriving DecidableEq, Repr

/-- The bytes of the root directory's name, `"root"`. -/
def rootName : List Nat := [114, 111, 111, 116]

/-- `Aviation.__init__` (the walking part): build the root directory from
the synthetic entry `{"pointer": 0, "name": "root"}` at depth 0, mapping
escaped exceptions through the constructor's two `except` clauses.  The
`dir_map` state is a parameter because the real map is a class attribute
that survives across constructions. -/
def aviationInit (bin : List Nat) (cfg : Config) (fuel : Nat) (st : St) :
    Except AvErr (DirNode × St) :=
  match walkDir bin cfg fuel 0 rootName 0 [] st with
  | .ok r => .ok r
  | .error .structError => .error .formatException
  | .error .fuelOut => .error .fuelOut
  | .error _ => .error .nameError

/-! ### Characterizations of the primitive reads -/

theorem byteAt_lt (bin : List Nat) (i : Nat) : byteAt bin i < 256 :=
  Nat.mod_lt _ (by omega)

theorem u32val_lt (bin : List Nat) (off : Nat) : u32val bin off < 2 ^ 32 := by
  have h0 := byteAt_lt bin off
  have h1 := byteAt_lt bin (off + 1)
  have h2 := byteAt_lt bin (off + 2)
  have h3 := byteAt_lt bin (off + 3)
  unfold u32val
  omega

theorem readU32_ok {bin : List Nat} {off : Nat} (h : off + 4 ≤ bin.length) :
    readU32 bin off = .ok (u32val bin off) := by
  simp [readU32, h]

theorem readU32_err {bin : List Nat} {off : Nat} (h : bin.length < off + 4) :
    readU32 bin off = .error .structError := by
  simp [readU32]
  omega

theorem readU32_ok_elim {bin : List Nat} {off n : Nat} (h : readU32 bin off = .ok n) :
    off + 4 ≤ bin.length ∧ n = u32val bin off ∧ n < 2 ^ 32 := by
  by_cases hc : off + 4 ≤ bin.length
  · rw [readU32_ok hc] at h
    exact ⟨hc, (Except.ok.inj h).symm, by rw [← Except.ok.inj h]; exact u32val_lt bin off⟩
  · rw [readU32_err (by omega)] at h
    cases h

theorem resolveName_err {nl : List Nat} {start : Nat} {e : Err}
    (h : resolveName nl start = .error e) : e = .valueError := by
  unfold resolveName at h
  cases hf : (nl.drop start).findIdx? (· == 0) <;> rw [hf] at h <;> cases h <;> rfl

/-! ### Characterizations of the record decoders -/

theorem decodeEntry_ok {bin : List Nat} {off : Nat} (h : off + 20 ≤ bin.length) :
    decodeEntry bin off = .ok ⟨u32val bin off, u32val bin (off + 4), u32val bin (off + 8),
      u32val bin (off + 12), u32val bin (off + 16)⟩ := by
  unfold decodeEntry
  rw [readU32_ok (by omega), readU32_ok (by omega), readU32_ok (by omega),
    readU32_ok (by omega), readU32_ok (by omega)]

theorem decodeEntry_err {bin : List Nat} {off : Nat} (h : bin.length < off + 20) :
    decodeEntry bin off = .error .structError := by
  unfold decodeEntry
  rcases Nat.lt_or_ge bin.length (off + 4) with h1 | h1
  · rw [readU32_err h1]
  rw [readU32_ok h1]
  rcases Nat.lt_or_ge bin.length (off + 4 + 4) with h2 | h2
  · rw [readU32_err (by omega)]
  rw [readU32_ok (by omega)]
  rcases Nat.lt_or_ge bin.length (off + 8 + 4) with h3 | h3
  · rw [readU32_err (by omega)]
  rw [readU32_ok (by omega)]
  rcases Nat.lt_or_ge bin.length (off + 12 + 4) with h4 | h4
  · rw [readU32_err (by omega)]
  rw [readU32_ok (by omega), readU32_err (by omega)]

theorem decodeEntry_ptr_lt {bin : List Nat} {off : Nat} {e : EntryRec}
    (h : decodeEntry bin off = .ok e) : e.pointer < 2 ^ 32 := by
  rcases Nat.lt_or_ge bin.length (off + 20) with hc | hc
  · rw [decodeEntry_err hc] at h; cases h
  · rw [decodeEntry_ok hc] at h
    rw [← Except.ok.inj h]
    exact u32val_lt bin (off + 4)

theorem decodeEntries_ok {bin : List Nat} :
    ∀ (n off : Nat), off + 20 * n ≤ bin.length → ∃ es, decodeEntries bin off n = .ok es := by
  intro n
  induction n with
  | zero => intro off _; exact ⟨[], rfl⟩
  | succ m ih =>
    intro off h
    obtain ⟨es, hes⟩ := ih (off + 20) (by omega)
    exact ⟨_, by unfold decodeEntries; rw [decodeEntry_ok (by omega), hes]⟩

theorem decodeEntries_err {bin : List Nat} :
    ∀ (n off : Nat), bin.length < off + 20 * n → 0 < n →
      decodeEntries bin off n = .error .structError := by
  intro n
  induction n with
  | zero => intro off _ h0; cases h0
  | succ m ih =>
    intro off h _
    unfold decodeEntries
    rcases Nat.lt_or_ge bin.length (off + 20) with h1 | h1
    · rw [decodeEntry_err h1]
    · rw [decodeEntry_ok h1]
      have hm : 0 < m := by omega
      rw [ih (off + 20) (by omega) hm]

theorem decodeEntries_ptr_lt {bin : List Nat} :
    ∀ {n off : Nat} {es : List EntryRec}, decodeEntries bin off n = .ok es →
      ∀ e ∈ es, e.pointer < 2 ^ 32 := by
  intro n
  induction n with
  | zero =>
    intro off es h e he
    cases Except.ok.inj h
    cases he
  | succ m ih =>
    intro off es h e he
    unfold decodeEntries at h
    cases h1 : decodeEntry bin off with
    | error err => rw [h1] at h; cases h
    | ok e1 =>
      rw [h1] at h
      cases h2 : decodeEntries bin (off + 20) m with
      | error err => rw [h2] at h; cases h
      | ok rest =>
        rw [h2] at h
        cases Except.ok.inj h
        rcases List.mem_cons.mp he with he1 | he2
        · rw [he1]; exact decodeEntry_ptr_lt h1
        · exact ih h2 e he2

theorem decodeDirectoryAt_ptr_lt {bin : List Nat} {off nE : Nat} {es : List EntryRec}
    {nl : List Nat} (h : decodeDirectoryAt bin off = .ok (nE, es, nl)) :
    ∀ e ∈ es, e.pointer < 2 ^ 32 := by
  unfold decodeDirectoryAt at h
  cases h1 : readU32 bin off with
  | error err => simp only [h1] at h; exact Except.noConfusion h
  | ok n =>
    simp only [h1] at h
    cases h2 : decodeEntries bin (off + 4) n with
    | error err => simp only [h2] at h; exact Except.noConfusion h
    | ok es1 =>
      simp only [h2] at h
      cases h3 : readU32 bin (off + 4 + 20 * n) with
      | error err => simp only [h3] at h; exact Except.noConfusion h
      | ok len =>
        simp only [h3] at h
        cases h4 : readBytes bin (off + 4 + 20 * n + 4) len with
        | error err => simp only [h4] at h; exact Except.noConfusion h
        | ok nl1 =>
          simp only [h4, Except.ok.injEq, Prod.mk.injEq] at h
          obtain ⟨-, hes, -⟩ := h
          rw [← hes]
          exact decodeEntries_ptr_lt h2

/-- Helper for the bounds claims: an entry table that would run past the
archive's end makes the whole directory decode fail with `struct.error`. -/
theorem decodeDirectoryAt_err_table {bin : List Nat} {off n : Nat}
    (h1 : readU32 bin off = .ok n) (h2 : bin.length < off + 4 + 20 * n) :
    decodeDirectoryAt bin off = .error .structError := by
  obtain ⟨hle, _, _⟩ := readU32_ok_elim h1
  have hn : 0 < n := by by_contra h0; omega
  unfold decodeDirectoryAt
  simp only [h1, decodeEntries_err n (off + 4) (show bin.length < off + 4 + 20 * n by omega) hn]

/-- Helper for the bounds claims: a string table that would run past the
archive's end makes the whole directory decode fail with `struct.error`. -/
theorem decodeDirectoryAt_err_names {bin : List Nat} {off n len : Nat}
    (h1 : readU32 bin off = .ok n) (h2 : readU32 bin (off + 4 + 20 * n) = .ok len)
    (h3 : bin.length < off + 4 + 20 * n + 4 + len) :
    decodeDirectoryAt bin off = .error .structError := by
  obtain ⟨hle2, _, _⟩ := readU32_ok_elim h2
  obtain ⟨es, hes⟩ := @decodeEntries_ok bin n (off + 4) (by omega)
  unfold decodeDirectoryAt
  have hrb : readBytes bin (off + 4 + 20 * n + 4) len = .error .structError := by
    unfold readBytes
    rw [if_neg (by omega)]
  simp only [h1, hes, h2, hrb]

/-! ### Association-list lemmas for the visited map -/

theorem lookup_eq_none_iff (l : List (Nat × RegEntry)) (k : Nat) :
    l.lookup k = none ↔ k ∉ l.map Prod.fst := by
  induction l with
  | nil => simp [List.lookup]
  | cons a l ih =>
    obtain ⟨a1, a2⟩ := a
    simp only [List.map_cons, List.mem_cons]
    by_cases h : k = a1
    · subst h
      simp [List.lookup]
    · have hbeq : (k == a1) = false := beq_eq_false_iff_ne.mpr h
      simp [List.lookup, hbeq, ih, h]

theorem lookup_some_mem {l : List (Nat × RegEntry)} {k : Nat} {v : RegEntry}
    (h : l.lookup k = some v) : k ∈ l.map Prod.fst := by
  by_contra hk
  rw [← lookup_eq_none_iff] at hk
  rw [hk] at h
  cases h

theorem lookup_append_left_none {m l : List (Nat × RegEntry)} {k : Nat}
    (h : k ∉ m.map Prod.fst) : (m ++ l).lookup k = l.lookup k := by
  induction m with
  | nil => rfl
  | cons a m ih =>
    obtain ⟨a1, a2⟩ := a
    simp only [List.map_cons, List.mem_cons] at h
    push_neg at h
    have hbeq : (k == a1) = false := beq_eq_false_iff_ne.mpr h.1
    simpa [List.lookup, hbeq] using ih h.2

theorem nodup_length_le {l : List Nat} {n : Nat} (hnd : l.Nodup)
    (hlt : ∀ x ∈ l, x < n) : l.length ≤ n := by
  have h1 : l.toFinset.card = l.length := List.toFinset_card_of_nodup hnd
  have h2 : l.toFinset ⊆ Finset.range n := by
    intro x hx
    exact Finset.mem_range.mpr (hlt x (List.mem_toFinset.mp hx))
  calc l.length = l.toFinset.card := h1.symm
    _ ≤ (Finset.range n).card := Finset.card_le_card h2
    _ = n := Finset.card_range n

/-! ### Walk invariants

`Inv` is the data-structure invariant of the walk state: the keys of
`dir_map` are exactly the offsets freshly decoded so far (in reverse
registration order), they are pairwise distinct, and each fits in 32 bits
(every registered pointer was decoded from a 4-byte field, and the root's
is 0).  `Ext st st'` says `st'` extends `st`: the walk only ever appends
to the decode log and prepends the corresponding registrations to
`dir_map`. -/

def Inv (st : St) : Prop :=
  st.dirMap.map Prod.fst = st.log.reverse ∧ st.log.Nodup ∧ ∀ k ∈ st.log, k < 2 ^ 32

def Ext (st st' : St) : Prop :=
  ∃ t m, st'.log = st.log ++ t ∧ st'.dirMap = m ++ st.dirMap ∧ m.map Prod.fst = t.reverse

theorem Ext.refl (st : St) : Ext st st := ⟨[], [], by simp, by simp, by simp⟩

theorem Ext.trans {s1 s2 s3 : St} (h12 : Ext s1 s2) (h23 : Ext s2 s3) : Ext s1 s3 := by
  obtain ⟨t1, m1, hl1, hd1, hm1⟩ := h12
  obtain ⟨t2, m2, hl2, hd2, hm2⟩ := h23
  exact ⟨t1 ++ t2, m2 ++ m1, by rw [hl2, hl1, List.append_assoc],
    by rw [hd2, hd1, List.append_assoc], by rw [List.map_append, hm1, hm2, List.reverse_append]⟩

theorem Ext.log_length_le {s s' : St} (h : Ext s s') : s.log.length ≤ s'.log.length := by
  obtain ⟨t, m, hl, _, _⟩ := h
  rw [hl]
  simp

theorem Inv_emptySt : Inv emptySt := by
  refine ⟨rfl, List.nodup_nil, ?_⟩
  intro k hk
  cases hk

/-- A registration already in the map survives any extension of the walk
state (new keys are always fresh, so earlier bindings are never
shadowed). -/
theorem lookup_preserved {s s' : St} (hext : Ext s s') (hinv : Inv s) (hinv' : Inv s')
    {k : Nat} {v : RegEntry} (hk : s.dirMap.lookup k = some v) :
    s'.dirMap.lookup k = some v := by
  obtain ⟨t, m, hlog, hdm, hmf⟩ := hext
  have hklog : k ∈ s.log := by
    have := lookup_some_mem hk
    rw [hinv.1, List.mem_reverse] at this
    exact this
  have hnd : (s.log ++ t).Nodup := by rw [← hlog]; exact hinv'.2.1
  have hkt : k ∉ t := fun ht => (List.disjoint_of_nodup_append hnd) hklog ht
  have hkm : k ∉ m.map Prod.fst := by
    rw [hmf, List.mem_reverse]
    exact hkt
  rw [hdm, lookup_append_left_none hkm, hk]

/-! ### `__should_visit_entry` lemmas -/

theorem sve_state (cfg : Config) (st : St) (pp : List (List Nat)) (e : EntryRec)
    (name : List Nat) (d : Nat) :
    ((should_visit_entry cfg st pp e name d).2).dirMap = st.dirMap ∧
    ((should_visit_entry cfg st pp e name d).2).log = st.log ∧
    ((should_visit_entry cfg st pp e name d).2).nextId = st.nextId ∧
    ((should_visit_entry cfg st pp e name d).2).heap = st.heap := by
  unfold should_visit_entry
  repeat' split
  all_goals exact ⟨rfl, rfl, rfl, rfl⟩

theorem sve_true_lookup {cfg : Config} {st : St} {pp : List (List Nat)} {e : EntryRec}
    {name : List Nat} {d : Nat} (hav : cfg.avoid_double_entries = true)
    (h : (should_visit_entry cfg st pp e name d).1 = true) :
    st.dirMap.lookup e.pointer = none := by
  cases hl : st.dirMap.lookup e.pointer with
  | none => rfl
  | some r =>
    exfalso
    unfold should_visit_entry at h
    simp only [hav, if_true, hl] at h
    by_cases h1 : e.pointer ∈ invalid_entries
    · simp [h1] at h
    · simp [h1] at h

/-! ### Preservation: a completed walk only extends the state -/

theorem walkList_pres {cfg : Config}
    (child : Nat → List Nat → St → Except Err (DirNode × St))
    (Hchild : ∀ p n s, p < 2 ^ 32 → Inv s →
      ∀ node s', child p n s = .ok (node, s') → Inv s' ∧ Ext s s') :
    ∀ (es : List EntryRec) (nl : List Nat) (d : Nat) (pp : List (List Nat)) (st : St),
      (∀ e ∈ es, e.pointer < 2 ^ 32) → Inv st →
      ∀ out, walkList child cfg es nl d pp st = .ok out → Inv out.2.2 ∧ Ext st out.2.2 := by
  intro es
  induction es with
  | nil =>
    intro nl d pp st _ hinv out h
    cases Except.ok.inj h
    exact ⟨hinv, Ext.refl st⟩
  | cons e rest ih =>
    intro nl d pp st hes hinv out h
    have heptr : e.pointer < 2 ^ 32 := hes e (List.mem_cons_self e rest)
    have hrest : ∀ x ∈ rest, x.pointer < 2 ^ 32 := fun x hx => hes x (List.mem_cons_of_mem e hx)
    unfold walkList at h
    cases hr : resolveName nl e.offset_into_str_list with
    | error err => rw [hr] at h; cases h
    | ok name =>
      rw [hr] at h
      simp only at h
      have hvsext : Ext st (should_visit_entry cfg st pp e name d).2 := by
        obtain ⟨h1, h2, _, _⟩ := sve_state cfg st pp e name d
        exact ⟨[], [], by rw [h2]; simp, by rw [h1]; simp, by simp⟩
      have hvsinv : Inv (should_visit_entry cfg st pp e name d).2 := by
        obtain ⟨h1, h2, _, _⟩ := sve_state cfg st pp e name d
        exact ⟨by rw [h1, h2]; exact hinv.1, by rw [h2]; exact hinv.2.1,
          by rw [h2]; exact hinv.2.2⟩
      by_cases hv : (should_visit_entry cfg st pp e name d).1 = true
      · rw [if_pos hv] at h
        by_cases hd : e.is_dir ≠ 0
        · rw [if_pos hd] at h
          cases hc : child e.pointer name (should_visit_entry cfg st pp e name d).2 with
          | error err => rw [hc] at h; cases h
          | ok r =>
            obtain ⟨node, st2⟩ := r
            simp only [hc] at h
            obtain ⟨hinv2, hext2⟩ := Hchild e.pointer name _ heptr hvsinv node st2 hc
            cases hw : walkList child cfg rest nl d pp st2 with
            | error err => rw [hw] at h; cases h
            | ok out3 =>
              simp only [hw] at h
              obtain ⟨dirs, files, st3⟩ := out3
              obtain ⟨hinv3, hext3⟩ := ih nl d pp st2 hrest hinv2 _ hw
              cases Except.ok.inj h
              exact ⟨hinv3, (hvsext.trans hext2).trans hext3⟩
        · rw [if_neg hd] at h
          cases hw : walkList child cfg rest nl d pp (should_visit_entry cfg st pp e name d).2 with
          | error err => rw [hw] at h; cases h
          | ok out3 =>
            simp only [hw] at h
            obtain ⟨dirs, files, st3⟩ := out3
            obtain ⟨hinv3, hext3⟩ := ih nl d pp _ hrest hvsinv _ hw
            cases Except.ok.inj h
            exact ⟨hinv3, hvsext.trans hext3⟩
      · rw [if_neg hv] at h
        obtain ⟨hinv3, hext3⟩ := ih nl d pp _ hrest hvsinv _ h
        exact ⟨hinv3, hvsext.trans hext3⟩

theorem walkDir_pres {bin : List Nat} {cfg : Config} :
    ∀ (fuel : Nat) (ptr : Nat) (name : List Nat) (depth : Nat) (pp : List (List Nat))
      (st : St), ptr < 2 ^ 32 → Inv st →
      ∀ node st', walkDir bin cfg fuel ptr name depth pp st = .ok (node, st') →
        Inv st' ∧ Ext st st' := by
  intro fuel
  induction fuel with
  | zero => intro ptr name depth pp st _ _ node st' h; cases h
  | succ f ih =>
    intro ptr name depth pp st hptr hinv node st' h
    unfold walkDir at h
    cases hl : st.dirMap.lookup ptr with
    | some r =>
      simp only [hl] at h
      split at h
      · cases h
      · cases Except.ok.inj h
        exact ⟨⟨hinv.1, hinv.2.1, hinv.2.2⟩, ⟨[], [], by simp, by simp, by simp⟩⟩
    | none =>
      simp only [hl] at h
      have hptrlog : ptr ∉ st.log := by
        have := (lookup_eq_none_iff st.dirMap ptr).mp hl
        rw [hinv.1, List.mem_reverse] at this
        exact this
      have hinv1 : Inv { st with
          dirMap := (ptr, ⟨st.nextId, name, pp ++ [name]⟩) :: st.dirMap
          nextId := st.nextId + 1
          log := st.log ++ [ptr] } := by
        refine ⟨?_, ?_, ?_⟩
        · simp [hinv.1]
        · rw [List.nodup_append]
          exact ⟨hinv.2.1, List.nodup_singleton ptr,
            fun a ha hmem => hptrlog ((List.mem_singleton.mp hmem) ▸ ha)⟩
        · intro k hk
          rcases List.mem_append.mp hk with hk1 | hk2
          · exact hinv.2.2 k hk1
          · rw [List.mem_singleton.mp hk2]; exact hptr
      have hext1 : Ext st { st with
          dirMap := (ptr, ⟨st.nextId, name, pp ++ [name]⟩) :: st.dirMap
          nextId := st.nextId + 1
          log := st.log ++ [ptr] } :=
        ⟨[ptr], [(ptr, ⟨st.nextId, name, pp ++ [name]⟩)], by simp, by simp, by simp⟩
      cases hdec : decodeDirectoryAt bin ptr with
      | error err => rw [hdec] at h; cases h
      | ok trip =>
        obtain ⟨nE, es, nl⟩ := trip
        simp only [hdec] at h
        have hes : ∀ e ∈ es, e.pointer < 2 ^ 32 := decodeDirectoryAt_ptr_lt hdec
        cases hw : walkList (fun p n s => walkDir bin cfg f p n (depth + 1) (pp ++ [name]) s)
            cfg es nl (depth + 1) (pp ++ [name]) { st with
              dirMap := (ptr, ⟨st.nextId, name, pp ++ [name]⟩) :: st.dirMap
              nextId := st.nextId + 1
              log := st.log ++ [ptr] } with
        | error err => rw [hw] at h; cases h
        | ok out =>
          rw [hw] at h
          obtain ⟨dirs, files, st2⟩ := out
          have hpres := walkList_pres
            (fun p n s => walkDir bin cfg f p n (depth + 1) (pp ++ [name]) s)
            (fun p n s hp hs node s' hc => ih p n (depth + 1) (pp ++ [name]) s hp hs node s' hc)
            es nl (depth + 1) (pp ++ [name]) _ hes hinv1 _ hw
          cases Except.ok.inj h
          refine ⟨⟨hpres.1.1, hpres.1.2.1, hpres.1.2.2⟩, ?_⟩
          exact (hext1.trans hpres.2).trans ⟨[], [], by simp, by simp, by simp⟩

/-! ### Error taxonomy of the decoders: decoding only raises `struct.error` -/

theorem readU32_err_elim {bin : List Nat} {off : Nat} {e : Err}
    (h : readU32 bin off = .error e) : e = .structError := by
  unfold readU32 at h
  split at h
  · cases h
  · exact (Except.error.inj h).symm

theorem readBytes_err_elim {bin : List Nat} {off len : Nat} {e : Err}
    (h : readBytes bin off len = .error e) : e = .structError := by
  unfold readBytes at h
  split at h
  · cases h
  · exact (Except.error.inj h).symm

theorem decodeEntry_err_elim {bin : List Nat} {off : Nat} {e : Err}
    (h : decodeEntry bin off = .error e) : e = .structError := by
  unfold decodeEntry at h
  cases h1 : readU32 bin off with
  | error err => simp only [h1] at h; exact (Except.error.inj h) ▸ readU32_err_elim h1
  | ok a =>
    simp only [h1] at h
    cases h2 : readU32 bin (off + 4) with
    | error err => simp only [h2] at h; exact (Except.error.inj h) ▸ readU32_err_elim h2
    | ok p =>
      simp only [h2] at h
      cases h3 : readU32 bin (off + 8) with
      | error err => simp only [h3] at h; exact (Except.error.inj h) ▸ readU32_err_elim h3
      | ok sz =>
        simp only [h3] at h
        cases h4 : readU32 bin (off + 12) with
        | error err => simp only [h4] at h; exact (Except.error.inj h) ▸ readU32_err_elim h4
        | ok w =>
          simp only [h4] at h
          cases h5 : readU32 bin (off + 16) with
          | error err => simp only [h5] at h; exact (Except.error.inj h) ▸ readU32_err_elim h5
          | ok r => simp only [h5] at h; cases h

theorem decodeEntries_err_elim {bin : List Nat} :
    ∀ {n off : Nat} {e : Err}, decodeEntries bin off n = .error e → e = .structError := by
  intro n
  induction n with
  | zero => intro off e h; cases h
  | succ m ih =>
    intro off e h
    unfold decodeEntries at h
    cases h1 : decodeEntry bin off with
    | error err =>
      simp only [h1] at h
      exact (Except.error.inj h) ▸ decodeEntry_err_elim h1
    | ok e1 =>
      simp only [h1] at h
      cases h2 : decodeEntries bin (off + 20) m with
      | error err =>
        simp only [h2] at h
        exact (Except.error.inj h) ▸ ih h2
      | ok rest => simp only [h2] at h; cases h

theorem decodeDirectoryAt_err_elim {bin : List Nat} {off : Nat} {e : Err}
    (h : decodeDirectoryAt bin off = .error e) : e = .structError := by
  unfold decodeDirectoryAt at h
  cases h1 : readU32 bin off with
  | error err =>
    simp only [h1] at h
    exact (Except.error.inj h) ▸ readU32_err_elim h1
  | ok n =>
    simp only [h1] at h
    cases h2 : decodeEntries bin (off + 4) n with
    | error err =>
      simp only [h2] at h
      exact (Except.error.inj h) ▸ decodeEntries_err_elim h2
    | ok es =>
      simp only [h2] at h
      cases h3 : readU32 bin (off + 4 + 20 * n) with
      | error err =>
        simp only [h3] at h
        exact (Except.error.inj h) ▸ readU32_err_elim h3
      | ok len =>
        simp only [h3] at h
        cases h4 : readBytes bin (off + 4 + 20 * n + 4) len with
        | error err =>
          simp only [h4] at h
          exact (Except.error.inj h) ▸ readBytes_err_elim h4
        | ok nl => simp only [h4] at h; cases h

/-! ### Fuel sufficiency

Registration-before-recursion is what makes the walk total: every fresh
directory construction permanently claims a 32-bit offset never seen
before, so the recursion depth is bounded by the number of offsets still
unclaimed, and fuel exceeding that number can never run out. -/

theorem walkList_fuel {cfg : Config} (B : St → Prop)
    (HB : ∀ s s', Ext s s' → B s → B s')
    {child : Nat → List Nat → St → Except Err (DirNode × St)}
    (Hchild : ∀ p n s, p < 2 ^ 32 → Inv s → B s →
      (child p n s ≠ .error .fuelOut ∧
       ∀ node s', child p n s = .ok (node, s') → Inv s' ∧ Ext s s')) :
    ∀ (es : List EntryRec) (nl : List Nat) (d : Nat) (pp : List (List Nat)) (st : St),
      (∀ e ∈ es, e.pointer < 2 ^ 32) → Inv st → B st →
      walkList child cfg es nl d pp st ≠ .error .fuelOut := by
  intro es
  induction es with
  | nil =>
    intro nl d pp st _ _ _ hcontra
    cases hcontra
  | cons e rest ih =>
    intro nl d pp st hes hinv hB hcontra
    have heptr : e.pointer < 2 ^ 32 := hes e (List.mem_cons_self e rest)
    have hrest : ∀ x ∈ rest, x.pointer < 2 ^ 32 := fun x hx => hes x (List.mem_cons_of_mem e hx)
    unfold walkList at hcontra
    cases hr : resolveName nl e.offset_into_str_list with
    | error err =>
      rw [hr] at hcontra
      rw [resolveName_err hr] at hcontra
      cases hcontra
    | ok name =>
      rw [hr] at hcontra
      simp only at hcontra
      have hvsext : Ext st (should_visit_entry cfg st pp e name d).2 := by
        obtain ⟨h1, h2, _, _⟩ := sve_state cfg st pp e name d
        exact ⟨[], [], by rw [h2]; simp, by rw [h1]; simp, by simp⟩
      have hvsinv : Inv (should_visit_entry cfg st pp e name d).2 := by
        obtain ⟨h1, h2, _, _⟩ := sve_state cfg st pp e name d
        exact ⟨by rw [h1, h2]; exact hinv.1, by rw [h2]; exact hinv.2.1,
          by rw [h2]; exact hinv.2.2⟩
      have hvsB : B (should_visit_entry cfg st pp e name d).2 := HB _ _ hvsext hB
      by_cases hv : (should_visit_entry cfg st pp e name d).1 = true
      · rw [if_pos hv] at hcontra
        by_cases hd : e.is_dir ≠ 0
        · rw [if_pos hd] at hcontra
          cases hc : child e.pointer name (should_visit_entry cfg st pp e name d).2 with
          | error err =>
            simp only [hc] at hcontra
            obtain ⟨hne, -⟩ := Hchild e.pointer name _ heptr hvsinv hvsB
            exact hne ((Except.error.inj hcontra) ▸ hc)
          | ok r =>
            obtain ⟨node, st2⟩ := r
            simp only [hc] at hcontra
            obtain ⟨-, hok⟩ := Hchild e.pointer name _ heptr hvsinv hvsB
            obtain ⟨hinv2, hext2⟩ := hok node st2 hc
            cases hw : walkList child cfg rest nl d pp st2 with
            | error err =>
              simp only [hw] at hcontra
              exact ih nl d pp st2 hrest hinv2 (HB _ _ (hvsext.trans hext2) hB)
                ((Except.error.inj hcontra) ▸ hw)
            | ok out3 =>
              obtain ⟨dirs, files, st3⟩ := out3
              simp only [hw] at hcontra
              cases hcontra
        · rw [if_neg hd] at hcontra
          cases hw : walkList child cfg rest nl d pp (should_visit_entry cfg st pp e name d).2 with
          | error err =>
            simp only [hw] at hcontra
            exact ih nl d pp _ hrest hvsinv hvsB ((Except.error.inj hcontra) ▸ hw)
          | ok out3 =>
            obtain ⟨dirs, files, st3⟩ := out3
            simp only [hw] at hcontra
            cases hcontra
      · rw [if_neg hv] at hcontra
        exact ih nl d pp _ hrest hvsinv hvsB hcontra

theorem walkDir_fuel {bin : List Nat} {cfg : Config} :
    ∀ (fuel ptr : Nat) (name : List Nat) (depth : Nat) (pp : List (List Nat)) (st : St),
      ptr < 2 ^ 32 → Inv st → 2 ^ 32 - st.log.length < fuel →
      walkDir bin cfg fuel ptr name depth pp st ≠ .error .fuelOut := by
  intro fuel
  induction fuel with
  | zero =>
    intro ptr name depth pp st _ _ hbnd
    exact absurd hbnd (by omega)
  | succ f ih =>
    intro ptr name depth pp st hptr hinv hbnd hcontra
    unfold walkDir at hcontra
    cases hl : st.dirMap.lookup ptr with
    | some r =>
      simp only [hl] at hcontra
      split at hcontra
      · exact Err.noConfusion (Except.error.inj hcontra)
      · cases hcontra
    | none =>
      simp only [hl] at hcontra
      have hptrlog : ptr ∉ st.log := by
        have := (lookup_eq_none_iff st.dirMap ptr).mp hl
        rw [hinv.1, List.mem_reverse] at this
        exact this
      have hloglt : st.log.length < 2 ^ 32 := by
        have hle : (st.log ++ [ptr]).length ≤ 2 ^ 32 := by
          refine nodup_length_le ?_ ?_
          · rw [List.nodup_append]
            exact ⟨hinv.2.1, List.nodup_singleton ptr,
              fun a ha hmem => hptrlog ((List.mem_singleton.mp hmem) ▸ ha)⟩
          · intro k hk
            rcases List.mem_append.mp hk with hk1 | hk2
            · exact hinv.2.2 k hk1
            · rw [List.mem_singleton.mp hk2]; exact hptr
        simp only [List.length_append, List.length_singleton] at hle
        omega
      have hinv1 : Inv { st with
          dirMap := (ptr, ⟨st.nextId, name, pp ++ [name]⟩) :: st.dirMap
          nextId := st.nextId + 1
          log := st.log ++ [ptr] } := by
        refine ⟨by simp [hinv.1], ?_, ?_⟩
        · rw [List.nodup_append]
          exact ⟨hinv.2.1, List.nodup_singleton ptr,
            fun a ha hmem => hptrlog ((List.mem_singleton.mp hmem) ▸ ha)⟩
        · intro k hk
          rcases List.mem_append.mp hk with hk1 | hk2
          · exact hinv.2.2 k hk1
          · rw [List.mem_singleton.mp hk2]; exact hptr
      cases hdec : decodeDirectoryAt bin ptr with
      | error err =>
        simp only [hdec] at hcontra
        have h1 : err = .fuelOut := Except.error.inj hcontra
        rw [decodeDirectoryAt_err_elim hdec] at h1
        cases h1
      | ok trip =>
        obtain ⟨nE, es, nl⟩ := trip
        simp only [hdec] at hcontra
        have hes : ∀ e ∈ es, e.pointer < 2 ^ 32 := decodeDirectoryAt_ptr_lt hdec
        cases hw : walkList (fun p n s => walkDir bin cfg f p n (depth + 1) (pp ++ [name]) s)
            cfg es nl (depth + 1) (pp ++ [name]) { st with
              dirMap := (ptr, ⟨st.nextId, name, pp ++ [name]⟩) :: st.dirMap
              nextId := st.nextId + 1
              log := st.log ++ [ptr] } with
        | error err =>
          simp only [hw] at hcontra
          refine walkList_fuel (fun s => 2 ^ 32 - s.log.length < f)
            (fun s s' he hb => by have := he.log_length_le; omega)
            (fun p n s hp hs hb =>
              ⟨ih p n (depth + 1) (pp ++ [name]) s hp hs hb,
               fun node s' hc => walkDir_pres f p n (depth + 1) (pp ++ [name]) s hp hs node s' hc⟩)
            es nl (depth + 1) (pp ++ [name]) _ hes hinv1 ?_ ((Except.error.inj hcontra) ▸ hw)
          simp only [List.length_append, List.length_singleton]
          omega
        | ok out =>
          obtain ⟨dirs, files, st2⟩ := out
          simp only [hw] at hcontra
          cases hcontra

/-! ### The assertion branch is unreachable from an unregistered pointer -/

theorem walkList_noassert {cfg : Config} (hav : cfg.avoid_double_entries = true)
    {child : Nat → List Nat → St → Except Err (DirNode × St)}
    (Hchild : ∀ p n s, s.dirMap.lookup p = none → child p n s ≠ .error .assertionFailure) :
    ∀ (es : List EntryRec) (nl : List Nat) (d : Nat) (pp : List (List Nat)) (st : St),
      walkList child cfg es nl d pp st ≠ .error .assertionFailure := by
  intro es
  induction es with
  | nil =>
    intro nl d pp st hcontra
    cases hcontra
  | cons e rest ih =>
    intro nl d pp st hcontra
    unfold walkList at hcontra
    cases hr : resolveName nl e.offset_into_str_list with
    | error err =>
      rw [hr] at hcontra
      rw [resolveName_err hr] at hcontra
      cases hcontra
    | ok name =>
      rw [hr] at hcontra
      simp only at hcontra
      by_cases hv : (should_visit_entry cfg st pp e name d).1 = true
      · rw [if_pos hv] at hcontra
        by_cases hd : e.is_dir ≠ 0
        · rw [if_pos hd] at hcontra
          cases hc : child e.pointer name (should_visit_entry cfg st pp e name d).2 with
          | error err =>
            simp only [hc] at hcontra
            have hl2 : ((should_visit_entry cfg st pp e name d).2).dirMap.lookup e.pointer
                = none := by
              rw [(sve_state cfg st pp e name d).1]
              exact sve_true_lookup hav hv
            exact Hchild e.pointer name _ hl2 ((Except.error.inj hcontra) ▸ hc)
          | ok r =>
            obtain ⟨node, st2⟩ := r
            simp only [hc] at hcontra
            cases hw : walkList child cfg rest nl d pp st2 with
            | error err =>
              simp only [hw] at hcontra
              exact ih nl d pp st2 ((Except.error.inj hcontra) ▸ hw)
            | ok out3 =>
              obtain ⟨dirs, files, st3⟩ := out3
              simp only [hw] at hcontra
              cases hcontra
        · rw [if_neg hd] at hcontra
          cases hw : walkList child cfg rest nl d pp (should_visit_entry cfg st pp e name d).2 with
          | error err =>
            simp only [hw] at hcontra
            exact ih nl d pp _ ((Except.error.inj hcontra) ▸ hw)
          | ok out3 =>
            obtain ⟨dirs, files, st3⟩ := out3
            simp only [hw] at hcontra
            cases hcontra
      · rw [if_neg hv] at hcontra
        exact ih nl d pp _ hcontra

theorem walkDir_noassert {bin : List Nat} {cfg : Config}
    (hav : cfg.avoid_double_entries = true) :
    ∀ (fuel ptr : Nat) (name : List Nat) (depth : Nat) (pp : List (List Nat)) (st : St),
      st.dirMap.lookup ptr = none →
      walkDir bin cfg fuel ptr name depth pp st ≠ .error .assertionFailure := by
  intro fuel
  induction fuel with
  | zero =>
    intro ptr name depth pp st _ hcontra
    cases hcontra
  | succ f ih =>
    intro ptr name depth pp st hl hcontra
    unfold walkDir at hcontra
    simp only [hl] at hcontra
    cases hdec : decodeDirectoryAt bin ptr with
    | error err =>
      simp only [hdec] at hcontra
      have h1 : err = .assertionFailure := Except.error.inj hcontra
      rw [decodeDirectoryAt_err_elim hdec] at h1
      cases h1
    | ok trip =>
      obtain ⟨nE, es, nl⟩ := trip
      simp only [hdec] at hcontra
      cases hw : walkList (fun p n s => walkDir bin cfg f p n (depth + 1) (pp ++ [name]) s)
          cfg es nl (depth + 1) (pp ++ [name]) { st with
            dirMap := (ptr, ⟨st.nextId, name, pp ++ [name]⟩) :: st.dirMap
            nextId := st.nextId + 1
            log := st.log ++ [ptr] } with
      | error err =>
        simp only [hw] at hcontra
        exact walkList_noassert hav
          (fun p n s hlp => ih p n (depth + 1) (pp ++ [name]) s hlp)
          es nl (depth + 1) (pp ++ [name]) _ ((Except.error.inj hcontra) ▸ hw)
      | ok out =>
        obtain ⟨dirs, files, st2⟩ := out
        simp only [hw] at hcontra
        cases hcontra

/-- Unfolding equation for one step of the entry loop. -/
theorem walkList_cons (child : Nat → List Nat → St → Except Err (DirNode × St))
    (cfg : Config) (e : EntryRec) (rest : List EntryRec) (nl : List Nat) (d : Nat)
    (pp : List (List Nat)) (st : St) :
    walkList child cfg (e :: rest) nl d pp st =
      match resolveName nl e.offset_into_str_list with
      | .error err => .error err
      | .ok name =>
        let vs := should_visit_entry cfg st pp e name d
        if vs.1 then
          if e.is_dir ≠ 0 then
            match child e.pointer name vs.2 with
            | .error err => .error err
            | .ok (node, st2) =>
              match walkList child cfg rest nl d pp st2 with
              | .error err => .error err
              | .ok (dirs, files, st3) => .ok (node :: dirs, files, st3)
          else
            match walkList child cfg rest nl d pp vs.2 with
            | .error err => .error err
            | .ok (dirs, files, st3) =>
              .ok (dirs, ⟨e.pointer, e.size, name, d, pp ++ [name]⟩ :: files, st3)
        else walkList child cfg rest nl d pp vs.2 := rfl

/-- A fresh directory construction appends its own offset to the decode
log before anything its children append. -/
theorem walkDir_fresh_log {bin : List Nat} {cfg : Config} {fuel ptr : Nat}
    {name : List Nat} {depth : Nat} {pp : List (List Nat)} {st : St} {node : DirNode}
    {st' : St} (hinv : Inv st) (hptr : ptr < 2 ^ 32)
    (hl : st.dirMap.lookup ptr = none)
    (h : walkDir bin cfg fuel ptr name depth pp st = .ok (node, st')) :
    (∃ t, st'.log = st.log ++ ptr :: t) ∧ st'.log.Nodup := by
  cases fuel with
  | zero => cases h
  | succ f =>
    unfold walkDir at h
    simp only [hl] at h
    have hptrlog : ptr ∉ st.log := by
      have := (lookup_eq_none_iff st.dirMap ptr).mp hl
      rw [hinv.1, List.mem_reverse] at this
      exact this
    have hinv1 : Inv { st with
        dirMap := (ptr, ⟨st.nextId, name, pp ++ [name]⟩) :: st.dirMap
        nextId := st.nextId + 1
        log := st.log ++ [ptr] } := by
      refine ⟨by simp [hinv.1], ?_, ?_⟩
      · rw [List.nodup_append]
        exact ⟨hinv.2.1, List.nodup_singleton ptr,
          fun a ha hmem => hptrlog ((List.mem_singleton.mp hmem) ▸ ha)⟩
      · intro k hk
        rcases List.mem_append.mp hk with hk1 | hk2
        · exact hinv.2.2 k hk1
        · rw [List.mem_singleton.mp hk2]; exact hptr
    cases hdec : decodeDirectoryAt bin ptr with
    | error err => rw [hdec] at h; cases h
    | ok trip =>
      obtain ⟨nE, es, nl⟩ := trip
      simp only [hdec] at h
      cases hw : walkList (fun p n s => walkDir bin cfg f p n (depth + 1) (pp ++ [name]) s)
          cfg es nl (depth + 1) (pp ++ [name]) { st with
            dirMap := (ptr, ⟨st.nextId, name, pp ++ [name]⟩) :: st.dirMap
            nextId := st.nextId + 1
            log := st.log ++ [ptr] } with
      | error err => simp only [hw] at h; cases h
      | ok out =>
        obtain ⟨dirs, files, st2⟩ := out
        simp only [hw] at h
        have hp := walkList_pres
          (fun p n s => walkDir bin cfg f p n (depth + 1) (pp ++ [name]) s)
          (fun p n s hps hss node2 s' hc =>
            walkDir_pres f p n (depth + 1) (pp ++ [name]) s hps hss node2 s' hc)
          es nl (depth + 1) (pp ++ [name]) _ (decodeDirectoryAt_ptr_lt hdec) hinv1 _ hw
        obtain ⟨hinv2, t, m, hlog, -, -⟩ := hp
        cases Except.ok.inj h
        constructor
        · refine ⟨t, ?_⟩
          show st2.log = st.log ++ ptr :: t
          rw [hlog, List.append_assoc, List.singleton_append]
        · exact hinv2.2.1

/-- C1.  For every archive and configuration, the walk terminates on any
input, cyclic pointer graphs included: each directory offset is
registered in the visited map (`Directory.dir_map`, modelled by
`St.dirMap`/`St.log`) before its entries are recursed into, so no
directory offset is ever freshly decoded twice in one walk (the decode
log stays duplicate-free), and the recursion depth — modelled by the fuel
the embedding consumes — is bounded by the number of 32-bit directory
offsets not yet registered: with more fuel than that, `walkDir` can never
report fuel exhaustion. -/
theorem claim_C1 (bin : List Nat) (cfg : Config) (fuel ptr : Nat) (name : List Nat)
    (depth : Nat) (pp : List (List Nat)) (st : St)
    (hinv : Inv st) (hptr : ptr < 2 ^ 32) (hfuel : 2 ^ 32 - st.log.length < fuel) :
    walkDir bin cfg fuel ptr name depth pp st ≠ .error .fuelOut ∧
    ∀ node st', walkDir bin cfg fuel ptr name depth pp st = .ok (node, st') →
      st'.log.Nodup ∧ ∃ t, st'.log = st.log ++ t := by
  refine ⟨walkDir_fuel fuel ptr name depth pp st hptr hinv hfuel, ?_⟩
  intro node st' h
  obtain ⟨hinv', t, m, hlog, -, -⟩ := walkDir_pres fuel ptr name depth pp st hptr hinv node st' h
  exact ⟨hinv'.2.1, t, hlog⟩

/-- Witness for C1: a full-archive walk from a fresh visited map, with
fuel one more than the count of 32-bit offsets, applied to a concrete
(empty) archive. -/
theorem claim_C1_witness :
    walkDir [] defaultConfig (2 ^ 32 + 1) 0 rootName 0 [] emptySt ≠ .error .fuelOut ∧
    ∀ node st', walkDir [] defaultConfig (2 ^ 32 + 1) 0 rootName 0 [] emptySt
        = .ok (node, st') → st'.log.Nodup ∧ ∃ t, st'.log = emptySt.log ++ t :=
  claim_C1 [] defaultConfig (2 ^ 32 + 1) 0 rootName 0 [] emptySt Inv_emptySt (by decide)
    (by decide)

/-- C6.  With duplicate suppression enabled: (1) constructing a directory
whose pointer is already in the visited map aborts the walk with the
explicit internal-error signal (`assert(False)` → `AssertionError`,
modelled as `Err.assertionFailure`) rather than silently continuing; and
(2) in a walk started from a fresh (empty) visited map this branch is
unreachable — the entry filter skips every already-visited pointer before
a construction can reach it, so the walk never produces the assertion
error. -/
theorem claim_C6 :
    (∀ (bin : List Nat) (cfg : Config) (fuel ptr : Nat) (name : List Nat) (depth : Nat)
        (pp : List (List Nat)) (st : St),
      cfg.avoid_double_entries = true → (st.dirMap.lookup ptr).isSome = true → 0 < fuel →
      walkDir bin cfg fuel ptr name depth pp st = .error .assertionFailure) ∧
    (∀ (bin : List Nat) (cfg : Config) (fuel ptr : Nat) (name : List Nat) (depth : Nat)
        (pp : List (List Nat)),
      cfg.avoid_double_entries = true →
      walkDir bin cfg fuel ptr name depth pp emptySt ≠ .error .assertionFailure) := by
  constructor
  · intro bin cfg fuel ptr name depth pp st hav hsome hfuel
    obtain ⟨r, hr⟩ := Option.isSome_iff_exists.mp hsome
    cases fuel with
    | zero => cases hfuel
    | succ f =>
      unfold walkDir
      simp only [hr, hav, if_true]
  · intro bin cfg fuel ptr name depth pp hav
    exact walkDir_noassert hav fuel ptr name depth pp emptySt rfl

/-- Witness for C6: the assertion fires on a state that already maps
pointer 0, and never fires on the empty state. -/
theorem claim_C6_witness :
    walkDir [] defaultConfig 1 0 rootName 0 []
      ⟨[(0, ⟨0, rootName, [rootName]⟩)], 1, [], [0], []⟩ = .error .assertionFailure ∧
    walkDir [] defaultConfig 1 0 rootName 0 [] emptySt ≠ .error .assertionFailure :=
  ⟨claim_C6.1 [] defaultConfig 1 0 rootName 0 []
      ⟨[(0, ⟨0, rootName, [rootName]⟩)], 1, [], [0], []⟩ rfl rfl (by decide),
   claim_C6.2 [] defaultConfig 1 0 rootName 0 [] rfl⟩

/-- C7.  The decoded `is_dir` field is exactly bit 15 of the 32-bit
attribute word: it equals `(attr_word >> 15) & 1`, the word `0x00008000`
decodes to 1, the word `0` to 0, and no setting of the reserved bits 0–14
(`lo`) and 16–31 (`hi`) changes the decoded value. -/
theorem claim_C7 :
    (∀ w : Nat, EntryRec.is_dir ⟨0, 0, 0, w, 0⟩ = (w >>> 15) &&& 1) ∧
    EntryRec.is_dir ⟨0, 0, 0, 0x00008000, 0⟩ = 1 ∧
    EntryRec.is_dir ⟨0, 0, 0, 0x00000000, 0⟩ = 0 ∧
    (∀ hi lo : Nat, lo < 2 ^ 15 →
      EntryRec.is_dir ⟨0, 0, 0, hi * 2 ^ 16 + 2 ^ 15 + lo, 0⟩ = 1 ∧
      EntryRec.is_dir ⟨0, 0, 0, hi * 2 ^ 16 + lo, 0⟩ = 0) := by
  have hclosed : ∀ w : Nat, EntryRec.is_dir ⟨0, 0, 0, w, 0⟩ = w / 2 ^ 15 % 2 := by
    intro w
    show bitField 15 15 w = w / 2 ^ 15 % 2
    unfold bitField
    rw [Nat.shiftRight_eq_div_pow]
    have h1 : (2 : Nat) <<< 15 = 2 ^ 16 := by decide
    have h2 : (2 : Nat) ^ 16 = 2 ^ 15 * 2 := by norm_num
    rw [h1, Nat.and_pow_two_sub_one_eq_mod, h2, Nat.mod_mul_right_div_self]
  refine ⟨?_, by decide, by decide, ?_⟩
  · intro w
    rw [hclosed w, Nat.and_one_is_mod, Nat.shiftRight_eq_div_pow]
  · intro hi lo hlo
    rw [hclosed, hclosed]
    have e15 : (2 : Nat) ^ 15 = 32768 := by norm_num
    have e16 : (2 : Nat) ^ 16 = 65536 := by norm_num
    rw [e15] at hlo
    rw [e15, e16]
    omega

/-- Witness for C7: the reserved-bit clause at `hi = 0xABCD`,
`lo = 0x1234`. -/
theorem claim_C7_witness :
    EntryRec.is_dir ⟨0, 0, 0, 0xABCD * 2 ^ 16 + 2 ^ 15 + 0x1234, 0⟩ = 1 ∧
    EntryRec.is_dir ⟨0, 0, 0, 0xABCD * 2 ^ 16 + 0x1234, 0⟩ = 0 :=
  claim_C7.2.2.2 0xABCD 0x1234 (by decide)

/-- C2, counterexample to the claim as stated: with duplicate suppression
enabled, a not-yet-seen pointer is *not* always resolved — the entry with
pointer `0x254574ac` is on the `Directory.invalid_entries` denylist, so
although its pointer is absent from the (empty) visited map it is skipped
and contributes nothing to either child list. -/
theorem claim_C2_counterexample :
    emptySt.dirMap.lookup 0x254574ac = none ∧
    walkList (fun _ _ _ => .error .fuelOut) defaultConfig
      [⟨0, 0x254574ac, 0, 0, 0⟩] [97, 0] 1 [] emptySt
      = .ok ([], [], ⟨[], 0, [], [], [Diag.skipInvalid [97] 0x254574ac]⟩) :=
  ⟨rfl, rfl⟩

/-- C2 (amended).  With `avoid_double_entries = true`: every entry whose
pointer is already in the visited map when it is processed is omitted
entirely from both child lists — the step reduces to processing the
remaining entries with only a diagnostic appended — and an entry with a
not-yet-seen pointer is resolved (as a `File` or by recursing into a
child directory) provided its pointer is not on the invalid-entries
denylist and it is not excluded by a configured depth limit. -/
theorem claim_C2 (child : Nat → List Nat → St → Except Err (DirNode × St)) (cfg : Config)
    (e : EntryRec) (rest : List EntryRec) (nl : List Nat) (d : Nat)
    (pp : List (List Nat)) (st : St) (name : List Nat)
    (hav : cfg.avoid_double_entries = true)
    (hname : resolveName nl e.offset_into_str_list = .ok name) :
    ((st.dirMap.lookup e.pointer).isSome = true →
      ∃ dg, walkList child cfg (e :: rest) nl d pp st
        = walkList child cfg rest nl d pp { st with diags := st.diags ++ [dg] }) ∧
    (st.dirMap.lookup e.pointer = none → e.pointer ∉ invalid_entries →
      (cfg.depth_limit = 0 ∨ d ≤ cfg.depth_limit) →
      should_visit_entry cfg st pp e name d = (true, st) ∧
      (e.is_dir = 0 →
        walkList child cfg (e :: rest) nl d pp st
          = (walkList child cfg rest nl d pp st).map
              (fun out => (out.1,
                (⟨e.pointer, e.size, name, d, pp ++ [name]⟩ : FileNode) :: out.2.1,
                out.2.2))) ∧
      (e.is_dir ≠ 0 →
        walkList child cfg (e :: rest) nl d pp st
          = (child e.pointer name st).bind
              (fun ns => (walkList child cfg rest nl d pp ns.2).map
                (fun out => (ns.1 :: out.1, out.2.1, out.2.2))))) := by
  constructor
  · intro hsome
    obtain ⟨r, hr⟩ := Option.isSome_iff_exists.mp hsome
    by_cases hi : e.pointer ∈ invalid_entries
    · refine ⟨.skipInvalid name e.pointer, ?_⟩
      rw [walkList_cons]
      simp only [hname]
      have hsve : should_visit_entry cfg st pp e name d
          = (false, { st with diags := st.diags ++ [.skipInvalid name e.pointer] }) := by
        unfold should_visit_entry
        rw [if_pos hi]
      simp only [hsve]
      rfl
    · refine ⟨.skipDouble pp name e.pointer r.path, ?_⟩
      rw [walkList_cons]
      simp only [hname]
      have hsve : should_visit_entry cfg st pp e name d
          = (false, { st with diags := st.diags ++ [.skipDouble pp name e.pointer r.path] }) := by
        unfold should_visit_entry
        rw [if_neg hi, hav, if_pos rfl]
        simp only [hr]
      simp only [hsve]
      rfl
  · intro hnone hninv hdep
    have hsve : should_visit_entry cfg st pp e name d = (true, st) := by
      unfold should_visit_entry
      rw [if_neg hninv, hav, if_pos rfl]
      simp only [hnone]
      rw [if_neg ?hc]
      case hc =>
        rintro ⟨hne, hlt⟩
        rcases hdep with h0 | hle
        · exact hne h0
        · omega
    refine ⟨hsve, ?_, ?_⟩
    · intro hd0
      rw [walkList_cons]
      simp only [hname, hsve]
      rw [if_pos trivial, if_neg (show ¬e.is_dir ≠ 0 from fun hh => hh hd0)]
      show (match walkList child cfg rest nl d pp st with
        | Except.error err => Except.error err
        | Except.ok (dirs, files, st3) =>
          Except.ok (dirs, (⟨e.pointer, e.size, name, d, pp ++ [name]⟩ : FileNode) :: files,
            st3)) = _
      cases hw : walkList child cfg rest nl d pp st with
      | error err => simp only [Except.map]
      | ok out =>
        obtain ⟨dirs, files, st3⟩ := out
        simp only [Except.map]
    · intro hdne
      rw [walkList_cons]
      simp only [hname, hsve]
      rw [if_pos trivial, if_pos hdne]
      show (match child e.pointer name st with
        | Except.error err => Except.error err
        | Except.ok (node, st2) =>
          match walkList child cfg rest nl d pp st2 with
          | Except.error err => Except.error err
          | Except.ok (dirs, files, st3) => Except.ok (node :: dirs, files, st3)) = _
      cases hc : child e.pointer name st with
      | error err => simp only [Except.bind]
      | ok r2 =>
        obtain ⟨node, st2⟩ := r2
        simp only [Except.bind]
        cases hw : walkList child cfg rest nl d pp st2 with
        | error err => simp only [Except.map]
        | ok out =>
          obtain ⟨dirs, files, st3⟩ := out
          simp only [Except.map]

/-- Witness for C2: the suppression clause on a state that maps pointer 7,
and the resolution clause on the empty state. -/
theorem claim_C2_witness :
    (∃ dg, walkList (fun _ _ _ => .error .fuelOut) defaultConfig
        [⟨0, 7, 0, 0x8000, 0⟩] [98, 0] 1 []
        ⟨[(7, ⟨0, [97], [[97]]⟩)], 1, [], [7], []⟩
      = walkList (fun _ _ _ => .error .fuelOut) defaultConfig [] [98, 0] 1 []
          { (⟨[(7, ⟨0, [97], [[97]]⟩)], 1, [], [7], []⟩ : St) with
            diags := (⟨[(7, ⟨0, [97], [[97]]⟩)], 1, [], [7], []⟩ : St).diags ++ [dg] }) ∧
    should_visit_entry defaultConfig emptySt [] ⟨0, 5, 3, 0, 0⟩ [98] 1 = (true, emptySt) :=
  ⟨(claim_C2 (fun _ _ _ => .error .fuelOut) defaultConfig ⟨0, 7, 0, 0x8000, 0⟩ [] [98, 0] 1 []
      ⟨[(7, ⟨0, [97], [[97]]⟩)], 1, [], [7], []⟩ [98] rfl rfl).1 rfl,
   ((claim_C2 (fun _ _ _ => .error .fuelOut) defaultConfig ⟨0, 5, 3, 0, 0⟩ [] [98, 0] 1 []
      emptySt [98] rfl rfl).2 rfl (by decide) (Or.inl rfl)).1⟩

/-! ### Step equations for the entry loop -/

theorem sve_eq_false_invalid {cfg : Config} {st : St} {pp : List (List Nat)} {e : EntryRec}
    {name : List Nat} {d : Nat} (hi : e.pointer ∈ invalid_entries) :
    should_visit_entry cfg st pp e name d
      = (false, { st with diags := st.diags ++ [.skipInvalid name e.pointer] }) := by
  unfold should_visit_entry
  rw [if_pos hi]

theorem sve_eq_false_double {cfg : Config} {st : St} {pp : List (List Nat)} {e : EntryRec}
    {name : List Nat} {d : Nat} {r : RegEntry} (hi : e.pointer ∉ invalid_entries)
    (hav : cfg.avoid_double_entries = true) (hr : st.dirMap.lookup e.pointer = some r) :
    should_visit_entry cfg st pp e name d
      = (false, { st with diags := st.diags ++ [.skipDouble pp name e.pointer r.path] }) := by
  unfold should_visit_entry
  rw [if_neg hi, hav, if_pos rfl]
  simp only [hr]

theorem sve_eq_true {cfg : Config} {st : St} {pp : List (List Nat)} {e : EntryRec}
    {name : List Nat} {d : Nat} (hav : cfg.avoid_double_entries = true)
    (hninv : e.pointer ∉ invalid_entries) (hnone : st.dirMap.lookup e.pointer = none)
    (hdep : cfg.depth_limit = 0 ∨ d ≤ cfg.depth_limit) :
    should_visit_entry cfg st pp e name d = (true, st) := by
  unfold should_visit_entry
  rw [if_neg hninv, hav, if_pos rfl]
  simp only [hnone]
  rw [if_neg ?hc]
  case hc =>
    rintro ⟨hne, hlt⟩
    rcases hdep with h0 | hle
    · exact hne h0
    · omega

theorem sve_fst_false_of_mem {cfg : Config} {st : St} {pp : List (List Nat)} {e : EntryRec}
    {name : List Nat} {d : Nat} (hav : cfg.avoid_double_entries = true)
    (hsome : (st.dirMap.lookup e.pointer).isSome = true) :
    (should_visit_entry cfg st pp e name d).1 = false := by
  obtain ⟨r, hr⟩ := Option.isSome_iff_exists.mp hsome
  by_cases hi : e.pointer ∈ invalid_entries
  · rw [sve_eq_false_invalid hi]
  · rw [sve_eq_false_double hi hav hr]

theorem walkList_step_skip {child : Nat → List Nat → St → Except Err (DirNode × St)}
    {cfg : Config} {e : EntryRec} {rest : List EntryRec} {nl : List Nat} {d : Nat}
    {pp : List (List Nat)} {st st2 : St} {name : List Nat}
    (hname : resolveName nl e.offset_into_str_list = .ok name)
    (hsve : should_visit_entry cfg st pp e name d = (false, st2)) :
    walkList child cfg (e :: rest) nl d pp st = walkList child cfg rest nl d pp st2 := by
  rw [walkList_cons]
  simp only [hname, hsve]
  rfl

theorem walkList_step_file {child : Nat → List Nat → St → Except Err (DirNode × St)}
    {cfg : Config} {e : EntryRec} {rest : List EntryRec} {nl : List Nat} {d : Nat}
    {pp : List (List Nat)} {st : St} {name : List Nat}
    (hname : resolveName nl e.offset_into_str_list = .ok name)
    (hsve : should_visit_entry cfg st pp e name d = (true, st)) (hd0 : e.is_dir = 0) :
    walkList child cfg (e :: rest) nl d pp st
      = (walkList child cfg rest nl d pp st).map
          (fun out => (out.1,
            (⟨e.pointer, e.size, name, d, pp ++ [name]⟩ : FileNode) :: out.2.1,
            out.2.2)) := by
  rw [walkList_cons]
  simp only [hname, hsve]
  rw [if_pos trivial, if_neg (show ¬e.is_dir ≠ 0 from fun hh => hh hd0)]
  show (match walkList child cfg rest nl d pp st with
    | Except.error err => Except.error err
    | Except.ok (dirs, files, st3) =>
      Except.ok (dirs, (⟨e.pointer, e.size, name, d, pp ++ [name]⟩ : FileNode) :: files,
        st3)) = _
  cases hw : walkList child cfg rest nl d pp st with
  | error err => simp only [Except.map]
  | ok out =>
    obtain ⟨dirs, files, st3⟩ := out
    simp only [Except.map]

theorem walkList_step_dir {child : Nat → List Nat → St → Except Err (DirNode × St)}
    {cfg : Config} {e : EntryRec} {rest : List EntryRec} {nl : List Nat} {d : Nat}
    {pp : List (List Nat)} {st : St} {name : List Nat}
    (hname : resolveName nl e.offset_into_str_list = .ok name)
    (hsve : should_visit_entry cfg st pp e name d = (true, st)) (hdne : e.is_dir ≠ 0) :
    walkList child cfg (e :: rest) nl d pp st
      = (child e.pointer name st).bind
          (fun ns => (walkList child cfg rest nl d pp ns.2).map
            (fun out => (ns.1 :: out.1, out.2.1, out.2.2))) := by
  rw [walkList_cons]
  simp only [hname, hsve]
  rw [if_pos trivial, if_pos hdne]
  show (match child e.pointer name st with
    | Except.error err => Except.error err
    | Except.ok (node, st2) =>
      match walkList child cfg rest nl d pp st2 with
      | Except.error err => Except.error err
      | Except.ok (dirs, files, st3) => Except.ok (node :: dirs, files, st3)) = _
  cases hc : child e.pointer name st with
  | error err => simp only [Except.bind]
  | ok r2 =>
    obtain ⟨node, st2⟩ := r2
    simp only [Except.bind]
    cases hw : walkList child cfg rest nl d pp st2 with
    | error err => simp only [Except.map]
    | ok out =>
      obtain ⟨dirs, files, st3⟩ := out
      simp only [Except.map]

/-- C3.  With `avoid_double_entries = false`, constructing a directory
whose pointer is already registered produces an alias node: same name and
path fields of its own, but its child lists are shared with (literally
the lists of) the first directory resolved at that pointer, via
`copy_attr` — modelled as `DirNode.sameAs` pointing at the registered
heap id.  The state is unchanged except for the alias diagnostic: in
particular nothing is decoded from the archive (the decode log does not
grow).  Moreover, across any walk, no offset is ever freshly decoded
twice: the final decode log is duplicate-free, so the directory bytes at
a duplicated pointer are decoded exactly once. -/
theorem claim_C3 :
    (∀ (bin : List Nat) (cfg : Config) (f ptr : Nat) (name : List Nat) (depth : Nat)
        (pp : List (List Nat)) (st : St) (r : RegEntry),
      cfg.avoid_double_entries = false → st.dirMap.lookup ptr = some r →
      walkDir bin cfg (f + 1) ptr name depth pp st
        = .ok (.sameAs name (pp ++ [name]) depth r.id,
            { st with diags := st.diags ++ [.aliasOf name r.name r.path ptr] })) ∧
    (∀ (bin : List Nat) (cfg : Config) (fuel ptr : Nat) (name : List Nat) (depth : Nat)
        (pp : List (List Nat)) (st : St) (node : DirNode) (st' : St),
      Inv st → ptr < 2 ^ 32 →
      walkDir bin cfg fuel ptr name depth pp st = .ok (node, st') → st'.log.Nodup) := by
  constructor
  · intro bin cfg f ptr name depth pp st r hav hr
    unfold walkDir
    simp only [hr]
    rw [if_neg (show ¬cfg.avoid_double_entries = true by simp [hav])]
  · intro bin cfg fuel ptr name depth pp st node st' hinv hptr h
    exact (walkDir_pres fuel ptr name depth pp st hptr hinv node st' h).1.2.1

/-- Witness for C3: the alias equation on a state that maps pointer 52 to
registration id 3, and the duplicate-free log of a completed concrete
walk. -/
theorem claim_C3_witness :
    walkDir [] ⟨false, false, 0⟩ 1 52 [98] 1 [[114]]
      ⟨[(52, ⟨3, [97], [[114], [97]]⟩)], 4, [], [52], []⟩
      = .ok (.sameAs [98] [[114], [98]] 1 3,
          ⟨[(52, ⟨3, [97], [[114], [97]]⟩)], 4, [],
           [52], [.aliasOf [98] [97] [[114], [97]] 52]⟩) ∧
    ∀ node st', walkDir [0, 0, 0, 0, 0, 0, 0, 0] ⟨false, false, 0⟩ 2 0 rootName 0 [] emptySt
        = .ok (node, st') → st'.log.Nodup :=
  ⟨claim_C3.1 [] ⟨false, false, 0⟩ 0 52 [98] 1 [[114]]
      ⟨[(52, ⟨3, [97], [[114], [97]]⟩)], 4, [], [52], []⟩ ⟨3, [97], [[114], [97]]⟩ rfl rfl,
   fun node st' h => claim_C3.2 [0, 0, 0, 0, 0, 0, 0, 0] ⟨false, false, 0⟩ 2 0 rootName 0 []
      emptySt node st' Inv_emptySt (by decide) h⟩

/-- C9.  The visited map only ever holds directory offsets: (1) a
completed walk extends the map by exactly the offsets appended to the
fresh-directory decode log (resolving a `File` never registers its
pointer); (2) consequently, with duplicate suppression on, two file
entries sharing a pointer that is not a registered directory offset are
both resolved into the parent's file list — file-to-file duplicates are
never suppressed — and the map is untouched; (3) an entry whose pointer
is a previously registered directory offset is suppressed regardless of
its own `is_dir` bit (the filter never consults `is_dir`). -/
theorem claim_C9 :
    (∀ (bin : List Nat) (cfg : Config) (fuel ptr : Nat) (name : List Nat) (depth : Nat)
        (pp : List (List Nat)) (st : St) (node : DirNode) (st' : St),
      ptr < 2 ^ 32 → Inv st →
      walkDir bin cfg fuel ptr name depth pp st = .ok (node, st') →
      ∃ t m, st'.log = st.log ++ t ∧ st'.dirMap = m ++ st.dirMap ∧
        m.map Prod.fst = t.reverse) ∧
    (∀ (child : Nat → List Nat → St → Except Err (DirNode × St)) (cfg : Config)
        (st : St) (p s1 s2 : Nat),
      cfg.avoid_double_entries = true → cfg.depth_limit = 0 →
      p ∉ invalid_entries → st.dirMap.lookup p = none →
      walkList child cfg [⟨0, p, s1, 0, 0⟩, ⟨2, p, s2, 0, 0⟩] [97, 0, 98, 0] 1 [] st
        = .ok ([], [⟨p, s1, [97], 1, [[97]]⟩, ⟨p, s2, [98], 1, [[98]]⟩], st)) ∧
    (∀ (cfg : Config) (st : St) (pp : List (List Nat)) (e : EntryRec) (name : List Nat)
        (d : Nat),
      cfg.avoid_double_entries = true → (st.dirMap.lookup e.pointer).isSome = true →
      (should_visit_entry cfg st pp e name d).1 = false) := by
  refine ⟨?_, ?_, ?_⟩
  · intro bin cfg fuel ptr name depth pp st node st' hptr hinv h
    exact (walkDir_pres fuel ptr name depth pp st hptr hinv node st' h).2
  · intro child cfg st p s1 s2 hav hd0 hpninv hlp
    have hdep : cfg.depth_limit = 0 ∨ 1 ≤ cfg.depth_limit := Or.inl hd0
    rw [walkList_step_file (e := ⟨0, p, s1, 0, 0⟩)
        (show resolveName [97, 0, 98, 0]
          ((⟨0, p, s1, 0, 0⟩ : EntryRec).offset_into_str_list) = Except.ok [97] from rfl)
        (sve_eq_true hav hpninv hlp hdep) (by simp only [EntryRec.is_dir]; decide),
      walkList_step_file (e := ⟨2, p, s2, 0, 0⟩)
        (show resolveName [97, 0, 98, 0]
          ((⟨2, p, s2, 0, 0⟩ : EntryRec).offset_into_str_list) = Except.ok [98] from rfl)
        (sve_eq_true hav hpninv hlp hdep) (by simp only [EntryRec.is_dir]; decide)]
    rfl
  · intro cfg st pp e name d hav hsome
    exact sve_fst_false_of_mem hav hsome

/-- Witness for C9 at concrete inputs: a completed concrete walk for the
map-extension clause, pointer 5 for the file-pair clause, and a state
mapping pointer 7 for the suppression clause. -/
theorem claim_C9_witness :
    (∃ t m, ([0] : List Nat) = emptySt.log ++ t ∧
      ([(0, (⟨0, rootName, [rootName]⟩ : RegEntry))] : List (Nat × RegEntry))
        = m ++ emptySt.dirMap ∧ m.map Prod.fst = t.reverse) ∧
    walkList (fun _ _ _ => .error .fuelOut) defaultConfig
      [⟨0, 5, 11, 0, 0⟩, ⟨2, 5, 13, 0, 0⟩] [97, 0, 98, 0] 1 [] emptySt
      = .ok ([], [⟨5, 11, [97], 1, [[97]]⟩, ⟨5, 13, [98], 1, [[98]]⟩], emptySt) ∧
    (should_visit_entry defaultConfig ⟨[(7, ⟨0, [97], [[97]]⟩)], 1, [], [7], []⟩ []
      ⟨0, 7, 0, 0x8000, 0⟩ [98] 1).1 = false := by
  refine ⟨?_, ?_, ?_⟩
  · have h := claim_C9.1 [0, 0, 0, 0, 0, 0, 0, 0] defaultConfig 2 0 rootName 0 [] emptySt
      (.own rootName [rootName] 0 [] [])
      ⟨[(0, ⟨0, rootName, [rootName]⟩)], 1, [(0, .own rootName [rootName] 0 [] [])], [0], []⟩
      (by decide) Inv_emptySt rfl
    exact h
  · exact claim_C9.2.1 (fun _ _ _ => .error .fuelOut) defaultConfig emptySt 5 11 13 rfl rfl
      (by decide) rfl
  · exact claim_C9.2.2 defaultConfig ⟨[(7, ⟨0, [97], [[97]]⟩)], 1, [], [7], []⟩ []
      ⟨0, 7, 0, 0x8000, 0⟩ [98] 1 rfl rfl

/-- With duplicate suppression disabled the filter never consults the
visited map: an entry off the denylist and within any depth limit passes,
whatever its pointer. -/
theorem sve_eq_true_noavoid {cfg : Config} {st : St} {pp : List (List Nat)} {e : EntryRec}
    {name : List Nat} {d : Nat} (hav : cfg.avoid_double_entries = false)
    (hninv : e.pointer ∉ invalid_entries)
    (hdep : cfg.depth_limit = 0 ∨ d ≤ cfg.depth_limit) :
    should_visit_entry cfg st pp e name d = (true, st) := by
  unfold should_visit_entry
  rw [if_neg hninv, if_neg (show ¬cfg.avoid_double_entries = true by simp [hav])]
  rw [if_neg ?hc]
  case hc =>
    rintro ⟨hne, hlt⟩
    rcases hdep with h0 | hle
    · exact hne h0
    · omega

/-- C10, counterexample to the claim as stated: with
`avoid_double_entries = false` and offset 0 registered (as the root's
registration), a *file* entry (`is_dir` bit clear) whose pointer is 0 is
neither omitted nor aliased to root's children — `__should_visit_entry`
skips the `dir_map` check entirely when suppression is off, and
`is_dir = 0` routes to `File(...)`, never reaching the alias branch of
`Directory.__init__` — so the entry is resolved as an ordinary file into
the parent's file list, the state untouched. -/
theorem claim_C10_counterexample :
    (⟨[(0, ⟨0, rootName, [rootName]⟩)], 1, [], [0], []⟩ : St).dirMap.lookup 0
      = some ⟨0, rootName, [rootName]⟩ ∧
    walkList (fun _ _ _ => .error .fuelOut) ⟨false, false, 0⟩
      [⟨0, 0, 5, 0, 0⟩] [97, 0] 1 [[114]]
      ⟨[(0, ⟨0, rootName, [rootName]⟩)], 1, [], [0], []⟩
      = .ok ([], [⟨0, 5, [97], 1, [[114], [97]]⟩],
          ⟨[(0, ⟨0, rootName, [rootName]⟩)], 1, [], [0], []⟩) :=
  ⟨rfl, rfl⟩

/-- C10 (amended).  The root's offset 0 is registered in the visited map
before any entry of the archive is processed: in a walk from a fresh map
the decode log starts with 0 and never lists 0 again, so offset 0 is
never freshly decoded as a child.  While 0 is registered: with
`avoid_double_entries = true` every entry with pointer 0 is filtered out
(regardless of its `is_dir` bit); with `avoid_double_entries = false` a
*directory* entry with pointer 0 reaching construction is aliased to the
registered root node's children, while a *file* entry with pointer 0 is
resolved as an ordinary file into the parent's file list (the filter
skips the visited-map check when suppression is off, and file resolution
never decodes a directory); and the registration of 0 made at the start
survives to the final state of any completed sub-walk. -/
theorem claim_C10 :
    (∀ (bin : List Nat) (cfg : Config) (fuel : Nat) (node : DirNode) (st' : St),
      walkDir bin cfg fuel 0 rootName 0 [] emptySt = .ok (node, st') →
      ∃ t, st'.log = 0 :: t ∧ 0 ∉ t) ∧
    (∀ (cfg : Config) (st : St) (pp : List (List Nat)) (e : EntryRec) (name : List Nat)
        (d : Nat),
      cfg.avoid_double_entries = true → e.pointer = 0 →
      (st.dirMap.lookup 0).isSome = true →
      (should_visit_entry cfg st pp e name d).1 = false) ∧
    (∀ (bin : List Nat) (cfg : Config) (f : Nat) (name : List Nat) (depth : Nat)
        (pp : List (List Nat)) (st : St) (r : RegEntry),
      cfg.avoid_double_entries = false → st.dirMap.lookup 0 = some r →
      walkDir bin cfg (f + 1) 0 name depth pp st
        = .ok (.sameAs name (pp ++ [name]) depth r.id,
            { st with diags := st.diags ++ [.aliasOf name r.name r.path 0] })) ∧
    (∀ (bin : List Nat) (cfg : Config) (fuel ptr : Nat) (name : List Nat) (depth : Nat)
        (pp : List (List Nat)) (st : St) (r : RegEntry) (node : DirNode) (st' : St),
      Inv st → ptr < 2 ^ 32 → st.dirMap.lookup 0 = some r →
      walkDir bin cfg fuel ptr name depth pp st = .ok (node, st') →
      st'.dirMap.lookup 0 = some r) ∧
    (∀ (child : Nat → List Nat → St → Except Err (DirNode × St)) (cfg : Config)
        (e : EntryRec) (rest : List EntryRec) (nl : List Nat) (d : Nat)
        (pp : List (List Nat)) (st : St) (name : List Nat),
      cfg.avoid_double_entries = false → e.pointer = 0 → e.is_dir = 0 →
      resolveName nl e.offset_into_str_list = .ok name →
      (cfg.depth_limit = 0 ∨ d ≤ cfg.depth_limit) →
      walkList child cfg (e :: rest) nl d pp st
        = (walkList child cfg rest nl d pp st).map
            (fun out => (out.1,
              (⟨e.pointer, e.size, name, d, pp ++ [name]⟩ : FileNode) :: out.2.1,
              out.2.2))) := by
  refine ⟨?_, ?_, ?_, ?_, ?_⟩
  · intro bin cfg fuel node st' h
    obtain ⟨⟨t, hlog⟩, hnd⟩ := walkDir_fresh_log Inv_emptySt (by decide) rfl h
    have hlog' : st'.log = 0 :: t := by simpa using hlog
    refine ⟨t, hlog', ?_⟩
    rw [hlog'] at hnd
    exact (List.nodup_cons.mp hnd).1
  · intro cfg st pp e name d hav hp0 hsome
    refine sve_fst_false_of_mem hav ?_
    rw [hp0]
    exact hsome
  · intro bin cfg f name depth pp st r hav hr
    unfold walkDir
    simp only [hr]
    rw [if_neg (show ¬cfg.avoid_double_entries = true by simp [hav])]
  · intro bin cfg fuel ptr name depth pp st r node st' hinv hptr hr h
    have hp := walkDir_pres fuel ptr name depth pp st hptr hinv node st' h
    exact lookup_preserved hp.2 hinv hp.1 hr
  · intro child cfg e rest nl d pp st name hav hp0 hd0 hname hdep
    have hninv : e.pointer ∉ invalid_entries := by
      rw [hp0]
      decide
    exact walkList_step_file hname (sve_eq_true_noavoid hav hninv hdep) hd0

/-- Witness for C10 at concrete inputs. -/
theorem claim_C10_witness :
    (∃ t, ([0] : List Nat) = 0 :: t ∧ 0 ∉ t) ∧
    (should_visit_entry defaultConfig ⟨[(0, ⟨0, rootName, [rootName]⟩)], 1, [], [0], []⟩ []
      ⟨0, 0, 9, 0, 0⟩ [98] 1).1 = false ∧
    walkDir [] ⟨false, false, 0⟩ 1 0 [98] 1 [[114]]
      ⟨[(0, ⟨0, rootName, [rootName]⟩)], 1, [], [0], []⟩
      = .ok (.sameAs [98] [[114], [98]] 1 0,
          ⟨[(0, ⟨0, rootName, [rootName]⟩)], 1, [],
           [0], [.aliasOf [98] rootName [rootName] 0]⟩) ∧
    List.lookup 0 ([(8, (⟨1, [97], [[114], [97]]⟩ : RegEntry)),
      (0, (⟨0, rootName, [rootName]⟩ : RegEntry))])
      = some ⟨0, rootName, [rootName]⟩ ∧
    walkList (fun _ _ _ => .error .fuelOut) ⟨false, false, 0⟩
      [⟨0, 0, 5, 0, 0⟩] [97, 0] 1 [[114]]
      ⟨[(0, ⟨0, rootName, [rootName]⟩)], 1, [], [0], []⟩
      = (walkList (fun _ _ _ => .error .fuelOut) ⟨false, false, 0⟩ [] [97, 0] 1 [[114]]
          ⟨[(0, ⟨0, rootName, [rootName]⟩)], 1, [], [0], []⟩).map
          (fun out => (out.1,
            (⟨(⟨0, 0, 5, 0, 0⟩ : EntryRec).pointer, (⟨0, 0, 5, 0, 0⟩ : EntryRec).size,
              [97], 1, [[114]] ++ [[97]]⟩ : FileNode) :: out.2.1,
            out.2.2)) := by
  refine ⟨?_, ?_, ?_, ?_, ?_⟩
  · exact claim_C10.1 [0, 0, 0, 0, 0, 0, 0, 0] defaultConfig 2 (.own rootName [rootName] 0 [] [])
      ⟨[(0, ⟨0, rootName, [rootName]⟩)], 1, [(0, .own rootName [rootName] 0 [] [])], [0], []⟩ rfl
  · exact claim_C10.2.1 defaultConfig ⟨[(0, ⟨0, rootName, [rootName]⟩)], 1, [], [0], []⟩ []
      ⟨0, 0, 9, 0, 0⟩ [98] 1 rfl rfl rfl
  · exact claim_C10.2.2.1 [] ⟨false, false, 0⟩ 0 [98] 1 [[114]]
      ⟨[(0, ⟨0, rootName, [rootName]⟩)], 1, [], [0], []⟩ ⟨0, rootName, [rootName]⟩ rfl rfl
  · exact claim_C10.2.2.2.1 [0, 0, 0, 0, 0, 0, 0, 0, 0, 0, 0, 0, 0, 0, 0, 0] defaultConfig 2 8
      [97] 1 [[114]] ⟨[(0, ⟨0, rootName, [rootName]⟩)], 1, [], [0], []⟩
      ⟨0, rootName, [rootName]⟩ (.own [97] [[114], [97]] 1 [] [])
      ⟨[(8, ⟨1, [97], [[114], [97]]⟩), (0, ⟨0, rootName, [rootName]⟩)], 2,
       [(1, .own [97] [[114], [97]] 1 [] [])], [0, 8], []⟩
      ⟨rfl, by simp, by intro k hk; rw [List.mem_singleton] at hk; subst hk; decide⟩
      (by decide) rfl rfl
  · exact claim_C10.2.2.2.2 (fun _ _ _ => .error .fuelOut) ⟨false, false, 0⟩
      ⟨0, 0, 5, 0, 0⟩ [] [97, 0] 1 [[114]]
      ⟨[(0, ⟨0, rootName, [rootName]⟩)], 1, [], [0], []⟩ [97] rfl rfl
      (by simp only [EntryRec.is_dir]; decide) rfl (Or.inl rfl)

/-- C4.  Name resolution itself behaves as specified: over the table
`b"foo\x5c0bar\x5c0"` it returns the bytes strictly between the offset and
the next NUL (`resolve 0 = "foo"`, `resolve 4 = "bar"`), and an offset
with no NUL at or after it fails with `ValueError` (the model of
`UnterminatedName`).  But that failure is *not* surfaced as the
archive-format exception: on the 30-byte archive whose root entry's name
has no terminating NUL, the constructor-level result is the unclassified
`NameError` produced by the buggy handler `except e:` (its guard
expression `e` is an undefined name), not `AviationException`. -/
theorem claim_C4 :
    resolveName [102, 111, 111, 0, 98, 97, 114, 0] 0 = .ok [102, 111, 111] ∧
    resolveName [102, 111, 111, 0, 98, 97, 114, 0] 4 = .ok [98, 97, 114] ∧
    resolveName [97, 98] 0 = .error .valueError ∧
    aviationInit [1, 0, 0, 0,
      0, 0, 0, 0, 100, 0, 0, 0, 0, 0, 0, 0, 0, 0, 0, 0, 0, 0, 0, 0,
      2, 0, 0, 0, 97, 98] defaultConfig 3 emptySt = .error .nameError :=
  ⟨rfl, rfl, rfl, rfl⟩

/-- C5.  Bounds are enforced: if a directory header's `num_entries` makes
the 20-byte-per-entry table extend past the archive's end, or the
subsequent `name_list_length` bytes extend past the end, the directory
decode fails with `struct.error`; and on such a root header the
`Aviation` constructor surfaces its archive-format exception
(`AviationException("Unexpected Error Reading AVIATION File Format")`,
modelled as `AvErr.formatException`) rather than silently returning a
truncated result. -/
theorem claim_C5 :
    (∀ (bin : List Nat) (off n : Nat),
      readU32 bin off = .ok n → bin.length < off + 4 + 20 * n →
      decodeDirectoryAt bin off = .error .structError) ∧
    (∀ (bin : List Nat) (off n len : Nat),
      readU32 bin off = .ok n → readU32 bin (off + 4 + 20 * n) = .ok len →
      bin.length < off + 4 + 20 * n + 4 + len →
      decodeDirectoryAt bin off = .error .structError) ∧
    (∀ (bin : List Nat) (cfg : Config) (fuel n : Nat),
      readU32 bin 0 = .ok n → bin.length < 4 + 20 * n → 0 < fuel →
      aviationInit bin cfg fuel emptySt = .error .formatException) := by
  refine ⟨?_, ?_, ?_⟩
  · intro bin off n h1 h2
    exact decodeDirectoryAt_err_table h1 h2
  · intro bin off n len h1 h2 h3
    exact decodeDirectoryAt_err_names h1 h2 h3
  · intro bin cfg fuel n h1 h2 hfuel
    cases fuel with
    | zero => cases hfuel
    | succ f =>
      have hdec : decodeDirectoryAt bin 0 = .error .structError :=
        decodeDirectoryAt_err_table h1 (by omega)
      have hwd : walkDir bin cfg (f + 1) 0 rootName 0 [] emptySt = .error .structError := by
        unfold walkDir
        have hl : emptySt.dirMap.lookup 0 = none := rfl
        simp only [hl, hdec]
      unfold aviationInit
      rw [hwd]

/-- Witness for C5: an entry table claimed past the end of a 4-byte
archive, a string table claimed past the end of an 8-byte archive, and
the constructor-level failure on the former. -/
theorem claim_C5_witness :
    decodeDirectoryAt [5, 0, 0, 0] 0 = .error .structError ∧
    decodeDirectoryAt [0, 0, 0, 0, 5, 0, 0, 0] 0 = .error .structError ∧
    aviationInit [5, 0, 0, 0] defaultConfig 1 emptySt = .error .formatException :=
  ⟨claim_C5.1 [5, 0, 0, 0] 0 5 rfl (by decide),
   claim_C5.2.1 [0, 0, 0, 0, 5, 0, 0, 0] 0 0 5 rfl rfl (by decide),
   claim_C5.2.2 [5, 0, 0, 0] defaultConfig 1 5 rfl (by decide) (by decide)⟩

/-- C8.  The visited map is *not* cleared between walks: it is the class
attribute `Directory.dir_map`, which no code resets.  On the 8-byte
archive holding an empty root directory, a first `Aviation` construction
succeeds and leaves offset 0 registered; a second construction started
from that leaked state finds 0 already mapped and (with the default
`avoid_double_entries = True`) dies in `assert(False)` — surfaced through
the broken `except e:` handler as a `NameError` — instead of walking
independently from an empty map as the claim states. -/
theorem claim_C8 :
    aviationInit [0, 0, 0, 0, 0, 0, 0, 0] defaultConfig 2 emptySt
      = .ok (.own rootName [rootName] 0 [] [],
          ⟨[(0, ⟨0, rootName, [rootName]⟩)], 1,
           [(0, .own rootName [rootName] 0 [] [])], [0], []⟩) ∧
    (⟨[(0, ⟨0, rootName, [rootName]⟩)], 1,
      [(0, .own rootName [rootName] 0 [] [])], [0], []⟩ : St).dirMap.lookup 0
      = some ⟨0, rootName, [rootName]⟩ ∧
    aviationInit [0, 0, 0, 0, 0, 0, 0, 0] defaultConfig 2
      ⟨[(0, ⟨0, rootName, [rootName]⟩)], 1,
       [(0, .own rootName [rootName] 0 [] [])], [0], []⟩
      = .error .nameError :=
  ⟨rfl, rfl, rfl⟩

end AviationModel
